import Mathlib

/-!
Verification of the aligned-storage / cell-header subsystem of the hermes
runtime.  The segment size is a build-time power-of-two constant; we model it
as a parameter L with size equal to 2 ^ L.  Addresses are natural numbers.
-/

namespace Hermes

/-- Modelled from the spec: the fixed segment size, a compile-time power of
two identical for every segment in the system (the concrete header defining
it is not in the sources).  Parameter L is the log of the size. -/
def storageSize (L : Nat) : Nat := 2 ^ L

theorem storageSize_pos (L : Nat) : 0 < storageSize L := Nat.pos_pow_of_pos L (by decide)

namespace AlignedStorage

/-- Modelled from the spec: segmentStart rounds the address down to the
nearest multiple of the segment size. -/
def start (L a : Nat) : Nat := a - a % storageSize L

/-- Modelled from the spec: segmentEnd is segmentStart plus the segment
size. -/
def endAddr (L a : Nat) : Nat := start L a + storageSize L

/-- Modelled from the spec: offsetWithin is the address minus its
segmentStart. -/
def offset (L a : Nat) : Nat := a - start L a

end AlignedStorage

/-- A segment handed out by a storage provider: its inclusive low limit and
exclusive high limit. -/
structure Segment (L : Nat) where
  lowLim : Nat
  hiLim : Nat

/-- The segment invariant: the low limit is aligned to the segment size and
the high limit sits exactly one segment size above it. -/
def Segment.wf (L : Nat) (s : Segment L) : Prop :=
  s.lowLim % storageSize L = 0 ∧ s.hiLim = s.lowLim + storageSize L

/-- Modelled from the spec: containment is true iff lowLim <= addr < hiLim,
strict on the high end. -/
def Segment.contains (L : Nat) (s : Segment L) (a : Nat) : Bool :=
  decide (s.lowLim ≤ a ∧ a < s.hiLim)

/-- Rounding up to a multiple of n. -/
def alignUp (a n : Nat) : Nat := (a + n - 1) / n * n

/-- Modelled from the spec: the OS-backed provider over-reserves at least one
extra segment size beyond the requested size, carves the aligned sub-region
out of wherever the OS placed the base, and releases the slivers.  The OS
base is an arbitrary input, which lets an adversary fragment the address
space between calls. -/
def mmapNewStorage (L osBase : Nat) : Segment L :=
  let lo := alignUp osBase (storageSize L)
  ⟨lo, lo + storageSize L⟩

theorem alignUp_mod (a n : Nat) : alignUp a n % n = 0 := Nat.mul_mod_left _ _

theorem le_alignUp (a n : Nat) (hn : 0 < n) : a ≤ alignUp a n := by
  unfold alignUp
  have h1 := Nat.div_add_mod (a + n - 1) n
  have h2 := Nat.mod_lt (a + n - 1) hn
  have h3 : (a + n - 1) / n * n = n * ((a + n - 1) / n) := Nat.mul_comm _ _
  omega

theorem alignUp_lt_add (a n : Nat) (hn : 0 < n) : alignUp a n < a + n := by
  unfold alignUp
  have h1 := Nat.div_mul_le_self (a + n - 1) n
  omega

theorem mod_of_aligned_range (n low a : Nat) (hal : low % n = 0) (h1 : low ≤ a)
    (h2 : a < low + n) : a % n = a - low := by
  obtain ⟨o, rfl⟩ : ∃ o, a = low + o := ⟨a - low, by omega⟩
  have ho : o < n := by omega
  rw [Nat.add_mod, hal, Nat.zero_add, Nat.mod_mod_of_dvd o (Nat.dvd_refl n),
    Nat.mod_eq_of_lt ho]
  omega

theorem start_mod (L a : Nat) : AlignedStorage.start L a % storageSize L = 0 := by
  unfold AlignedStorage.start
  have h := Nat.div_add_mod a (storageSize L)
  have h2 : a - a % storageSize L = storageSize L * (a / storageSize L) := by omega
  rw [h2]
  exact Nat.mul_mod_right _ _

theorem start_of_aligned (L m : Nat) (h : m % storageSize L = 0) :
    AlignedStorage.start L m = m := by
  unfold AlignedStorage.start
  omega

theorem start_in_range (L : Nat) (s : Segment L) (h : s.wf L) (a : Nat)
    (h1 : s.lowLim ≤ a) (h2 : a < s.hiLim) : AlignedStorage.start L a = s.lowLim := by
  obtain ⟨hal, hhi⟩ := h
  unfold AlignedStorage.start
  rw [mod_of_aligned_range (storageSize L) s.lowLim a hal h1 (by omega)]
  omega

/-- Claim C1: every allocation of the mmap storage provider returns a
segment whose low limit is a multiple of the segment size and whose extent
is exactly that size, lying inside the over-reserved region, for every OS
base in an arbitrary (adversarially interleaved) sequence of bases. -/
theorem mmap_alignment_under_interleaving (L : Nat) (bases : List Nat) (b : Nat)
    (hb : b ∈ bases) :
    (mmapNewStorage L b).lowLim % storageSize L = 0 ∧
    (mmapNewStorage L b).hiLim - (mmapNewStorage L b).lowLim = storageSize L ∧
    b ≤ (mmapNewStorage L b).lowLim ∧
    (mmapNewStorage L b).hiLim ≤ b + 2 * storageSize L ∧
    (mmapNewStorage L b).wf L := by
  have hpos := storageSize_pos L
  have hub := le_alignUp b (storageSize L) hpos
  have hlt := alignUp_lt_add b (storageSize L) hpos
  refine ⟨alignUp_mod b (storageSize L), by simp [mmapNewStorage], by
    simpa [mmapNewStorage] using hub, by simp [mmapNewStorage]; omega,
    alignUp_mod b (storageSize L), by simp [mmapNewStorage]⟩

/-- Witness for C1 at a concrete base. -/
theorem mmap_alignment_witness :
    5 ∈ [5] ∧
    ((mmapNewStorage 1 5).lowLim % storageSize 1 = 0 ∧
     (mmapNewStorage 1 5).hiLim - (mmapNewStorage 1 5).lowLim = storageSize 1 ∧
     5 ≤ (mmapNewStorage 1 5).lowLim ∧
     (mmapNewStorage 1 5).hiLim ≤ 5 + 2 * storageSize 1 ∧
     (mmapNewStorage 1 5).wf 1) :=
  ⟨by decide, mmap_alignment_under_interleaving 1 [5] 5 (by decide)⟩

/-- Claim C5: for every well-formed segment and every address inside it,
segmentStart gives the low limit, segmentEnd the high limit, offsetWithin
the distance from the low limit (always below the size), and containment
holds; conversely containment holds only for addresses in the half-open
range. -/
theorem alignedStorage_query_coherence (L : Nat) (s : Segment L) (h : s.wf L)
    (a : Nat) (h1 : s.lowLim ≤ a) (h2 : a < s.hiLim) :
    AlignedStorage.start L a = s.lowLim ∧
    AlignedStorage.endAddr L a = s.hiLim ∧
    AlignedStorage.offset L a = a - s.lowLim ∧
    AlignedStorage.offset L a < storageSize L ∧
    s.contains L a = true ∧
    (∀ b : Nat, s.contains L b = true ↔ (s.lowLim ≤ b ∧ b < s.hiLim)) := by
  have hst := start_in_range L s h a h1 h2
  obtain ⟨hal, hhi⟩ := h
  refine ⟨hst, ?_, ?_, ?_, ?_, ?_⟩
  · unfold AlignedStorage.endAddr
    rw [hst]
    omega
  · unfold AlignedStorage.offset
    rw [hst]
  · unfold AlignedStorage.offset
    rw [hst]
    omega
  · simp [Segment.contains]
    omega
  · intro b
    simp [Segment.contains]

/-- Witness for C5 at a concrete segment and address. -/
theorem alignedStorage_query_coherence_witness :
    ((Segment.mk 4 6 : Segment 1).wf 1 ∧ 4 ≤ 5 ∧ 5 < 6) ∧
    (AlignedStorage.start 1 5 = 4 ∧
     AlignedStorage.endAddr 1 5 = 6 ∧
     AlignedStorage.offset 1 5 = 5 - 4 ∧
     AlignedStorage.offset 1 5 < storageSize 1 ∧
     (Segment.mk 4 6 : Segment 1).contains 1 5 = true ∧
     (∀ b : Nat, (Segment.mk 4 6 : Segment 1).contains 1 b = true ↔ (4 ≤ b ∧ b < 6))) :=
  ⟨⟨⟨by decide, by decide⟩, by decide, by decide⟩,
    alignedStorage_query_coherence 1 (Segment.mk 4 6) ⟨by decide, by decide⟩ 5
      (by decide) (by decide)⟩

/-- Claim C6: containment is half-open at both ends, and the address equal
to the high limit belongs to the next segment (its segmentStart is itself
and its offset is zero). -/
theorem alignedStorage_boundary (L : Nat) (s : Segment L) (h : s.wf L)
    (hpos : 0 < s.lowLim) :
    s.contains L (s.lowLim - 1) = false ∧
    s.contains L s.lowLim = true ∧
    s.contains L (s.hiLim - 1) = true ∧
    s.contains L s.hiLim = false ∧
    AlignedStorage.start L s.hiLim = s.hiLim ∧
    AlignedStorage.offset L s.hiLim = 0 := by
  obtain ⟨hal, hhi⟩ := h
  have hszpos := storageSize_pos L
  have hhimod : s.hiLim % storageSize L = 0 := by
    rw [hhi, Nat.add_mod, hal, Nat.zero_add, Nat.mod_mod_of_dvd _ (Nat.dvd_refl _),
      Nat.mod_self]
  have hst := start_of_aligned L s.hiLim hhimod
  refine ⟨?_, ?_, ?_, ?_, hst, ?_⟩
  · simp [Segment.contains]
    omega
  · simp [Segment.contains]
    omega
  · simp [Segment.contains]
    omega
  · simp [Segment.contains]
  · unfold AlignedStorage.offset
    rw [hst]
    omega

/-- Witness for C6 at a concrete segment. -/
theorem alignedStorage_boundary_witness :
    ((Segment.mk 4 6 : Segment 1).wf 1 ∧ 0 < 4) ∧
    ((Segment.mk 4 6 : Segment 1).contains 1 3 = false ∧
     (Segment.mk 4 6 : Segment 1).contains 1 4 = true ∧
     (Segment.mk 4 6 : Segment 1).contains 1 5 = true ∧
     (Segment.mk 4 6 : Segment 1).contains 1 6 = false ∧
     AlignedStorage.start 1 6 = 6 ∧
     AlignedStorage.offset 1 6 = 0) :=
  ⟨⟨⟨by decide, by decide⟩, by decide⟩,
    alignedStorage_boundary 1 (Segment.mk 4 6) ⟨by decide, by decide⟩ (by decide)⟩

/-- Claim C7: segmentStart is idempotent on every address. -/
theorem alignedStorage_start_idempotent (L a : Nat) :
    AlignedStorage.start L (AlignedStorage.start L a) = AlignedStorage.start L a :=
  start_of_aligned L (AlignedStorage.start L a) (start_mod L a)

/-- Modelled from the spec: the page-level state of the virtual region
backing one segment, as observed through the OS binding layer (the binding
sources are not in the repository sources).  The region has numPages pages,
a flag saying whether the virtual range is mapped, and a residency bit per
page. -/
structure VMRegion where
  numPages : Nat
  mapped : Bool
  resident : Nat → Bool

/-- Modelled from the spec: the Footprint Probe counts the pages of the
region currently backed by physical memory.  No side effects. -/
def regionFootprint (r : VMRegion) : Nat :=
  ((Finset.range r.numPages).filter (fun i => r.resident i = true)).card

/-- Modelled from the spec: writing one byte to every page of the segment
transparently commits physical backing, so every page becomes resident.
The virtual mapping is untouched. -/
def touchAllPages (r : VMRegion) : VMRegion :=
  { r with resident := fun _ => true }

/-- Modelled from the spec: markUnused advises the OS that the pages in the
half-open page range may be reclaimed, without unmapping the virtual
address range; pages outside the range keep their residency. -/
def vmMarkUnused (r : VMRegion) (a b : Nat) : VMRegion :=
  { r with resident := fun i => if a ≤ i ∧ i < b then false else r.resident i }

theorem footprint_touchAllPages (r : VMRegion) :
    regionFootprint (touchAllPages r) = r.numPages := by
  simp [regionFootprint, touchAllPages]

/-- Claim C2: for a segment of N pages all touched, marking the first half
unused drops the footprint by exactly N / 2: the advised pages become
non-resident, the residency of every page outside the advised range is
unchanged, and the virtual range stays mapped. -/
theorem markUnused_footprint (r : VMRegion) :
    regionFootprint (touchAllPages r) = r.numPages ∧
    regionFootprint (touchAllPages r) -
      regionFootprint (vmMarkUnused (touchAllPages r) 0 (r.numPages / 2)) =
      r.numPages / 2 ∧
    (∀ i, i < r.numPages / 2 →
      (vmMarkUnused (touchAllPages r) 0 (r.numPages / 2)).resident i = false) ∧
    (∀ i, r.numPages / 2 ≤ i →
      (vmMarkUnused (touchAllPages r) 0 (r.numPages / 2)).resident i =
        (touchAllPages r).resident i) ∧
    (vmMarkUnused (touchAllPages r) 0 (r.numPages / 2)).mapped = r.mapped := by
  have hhalf : r.numPages / 2 ≤ r.numPages := Nat.div_le_self _ _
  have hcard : regionFootprint (vmMarkUnused (touchAllPages r) 0 (r.numPages / 2)) =
      r.numPages - r.numPages / 2 := by
    unfold regionFootprint vmMarkUnused touchAllPages
    simp only
    have hfe : (Finset.range r.numPages).filter
        (fun i => (if 0 ≤ i ∧ i < r.numPages / 2 then false else true) = true) =
        Finset.Ico (r.numPages / 2) r.numPages := by
      ext i
      simp [Finset.mem_filter, Finset.mem_range, Finset.mem_Ico]
      omega
    rw [hfe, Nat.card_Ico]
  refine ⟨footprint_touchAllPages r, ?_, ?_, ?_, rfl⟩
  · rw [footprint_touchAllPages r, hcard]
    omega
  · intro i hi
    simp [vmMarkUnused, touchAllPages]
    omega
  · intro i hi
    simp [vmMarkUnused, touchAllPages]
    omega

/-- Modelled from the spec: the limited (quota) storage provider wraps a
delegate and a byte budget, tracking the cumulative bytes granted. -/
structure LimitedStorageProvider where
  limit : Nat
  used : Nat

/-- The outcome of one allocation call on the limited provider: the
returned segment if any, the updated provider bookkeeping, and whether the
delegate was consulted. -/
structure LimitedAllocOutcome (L : Nat) where
  result : Option (Segment L)
  state : LimitedStorageProvider
  delegateConsulted : Bool

/-- Modelled from the spec: allocate on the limited provider first checks
whether granting one more segment size would exceed the budget; if so it
fails without consulting the delegate; otherwise it delegates and, on
success, adds the segment size to the tracked total.  The delegate response
is passed in as an Option. -/
def limitedNewStorage (L : Nat) (p : LimitedStorageProvider)
    (delegate : Option (Segment L)) : LimitedAllocOutcome L :=
  if p.limit < p.used + storageSize L then
    LimitedAllocOutcome.mk none p false
  else
    match delegate with
    | none => LimitedAllocOutcome.mk none p true
    | some s =>
      LimitedAllocOutcome.mk (some s)
        (LimitedStorageProvider.mk p.limit (p.used + storageSize L)) true

/-- Modelled from the spec: release on the limited provider forwards to the
delegate and subtracts the segment size from the tracked total.  The
returned flag records that the delegate was consulted. -/
def limitedDeleteStorage (L : Nat) (p : LimitedStorageProvider) :
    LimitedStorageProvider × Bool :=
  (LimitedStorageProvider.mk p.limit (p.used - storageSize L), true)

/-- Claim C3: the limited provider fails without consulting the delegate
whenever the tracked total plus the segment size would exceed the budget
(so with budget zero every allocation fails); otherwise it delegates and on
success adds the segment size to the total; with budget at least one
segment size the first allocation succeeds (delegate willing) and a later
allocation that would exceed the remaining budget fails while the first
returned segment is unchanged; release forwards to the delegate and
subtracts the segment size. -/
theorem limitedProvider_spec (L : Nat) (p : LimitedStorageProvider)
    (d : Option (Segment L)) (B : Nat) (s1 s2 : Segment L) :
    (p.limit < p.used + storageSize L →
      (limitedNewStorage L p d).result = none ∧
      (limitedNewStorage L p d).state = p ∧
      (limitedNewStorage L p d).delegateConsulted = false) ∧
    ((limitedNewStorage L (LimitedStorageProvider.mk 0 0) d).result = none) ∧
    (p.used + storageSize L ≤ p.limit →
      (limitedNewStorage L p d).delegateConsulted = true ∧
      (d = none → (limitedNewStorage L p d).result = none ∧
        (limitedNewStorage L p d).state = p) ∧
      (∀ s, d = some s → (limitedNewStorage L p d).result = some s ∧
        (limitedNewStorage L p d).state.used = p.used + storageSize L ∧
        (limitedNewStorage L p d).state.limit = p.limit)) ∧
    (storageSize L ≤ B →
      (limitedNewStorage L (LimitedStorageProvider.mk B 0) (some s1)).result = some s1 ∧
      (B < 2 * storageSize L →
        (limitedNewStorage L
          (limitedNewStorage L (LimitedStorageProvider.mk B 0) (some s1)).state
          (some s2)).result = none ∧
        (limitedNewStorage L (LimitedStorageProvider.mk B 0) (some s1)).result =
          some s1)) ∧
    ((limitedDeleteStorage L p).1.used = p.used - storageSize L ∧
     (limitedDeleteStorage L p).1.limit = p.limit ∧
     (limitedDeleteStorage L p).2 = true) := by
  have hpos := storageSize_pos L
  refine ⟨?_, ?_, ?_, ?_, by simp [limitedDeleteStorage]⟩
  · intro hover
    simp [limitedNewStorage, hover]
  · simp [limitedNewStorage, hpos]
  · intro hok
    have hnot : ¬ p.limit < p.used + storageSize L := by omega
    cases d with
    | none => simp [limitedNewStorage, hnot]
    | some s => simp [limitedNewStorage, hnot]
  · intro hB
    have hfit : ¬ B < storageSize L := by omega
    have h1 : limitedNewStorage L (LimitedStorageProvider.mk B 0) (some s1) =
        LimitedAllocOutcome.mk (some s1)
          (LimitedStorageProvider.mk B (storageSize L)) true := by
      simp [limitedNewStorage, hfit]
    refine ⟨by rw [h1], ?_⟩
    intro hB2
    have hover2 : B < storageSize L + storageSize L := by omega
    refine ⟨?_, by rw [h1]⟩
    rw [h1]
    simp [limitedNewStorage, hover2]

/-- Witness for C3 at a concrete budget and segments. -/
theorem limitedProvider_spec_witness :
    ((LimitedStorageProvider.mk 3 2).limit <
        (LimitedStorageProvider.mk 3 2).used + storageSize 1 →
      (limitedNewStorage 1 (LimitedStorageProvider.mk 3 2)
        (some (Segment.mk 4 6))).result = none ∧
      (limitedNewStorage 1 (LimitedStorageProvider.mk 3 2)
        (some (Segment.mk 4 6))).state = LimitedStorageProvider.mk 3 2 ∧
      (limitedNewStorage 1 (LimitedStorageProvider.mk 3 2)
        (some (Segment.mk 4 6))).delegateConsulted = false) ∧
    ((limitedNewStorage 1 (LimitedStorageProvider.mk 0 0)
        (some (Segment.mk 4 6))).result = none) ∧
    ((LimitedStorageProvider.mk 3 2).used + storageSize 1 ≤
        (LimitedStorageProvider.mk 3 2).limit →
      (limitedNewStorage 1 (LimitedStorageProvider.mk 3 2)
        (some (Segment.mk 4 6))).delegateConsulted = true ∧
      (some (Segment.mk 4 6) = (none : Option (Segment 1)) →
        (limitedNewStorage 1 (LimitedStorageProvider.mk 3 2)
          (some (Segment.mk 4 6))).result = none ∧
        (limitedNewStorage 1 (LimitedStorageProvider.mk 3 2)
          (some (Segment.mk 4 6))).state = LimitedStorageProvider.mk 3 2) ∧
      (∀ s : Segment 1, some (Segment.mk 4 6) = some s →
        (limitedNewStorage 1 (LimitedStorageProvider.mk 3 2)
          (some (Segment.mk 4 6))).result = some s ∧
        (limitedNewStorage 1 (LimitedStorageProvider.mk 3 2)
          (some (Segment.mk 4 6))).state.used =
          (LimitedStorageProvider.mk 3 2).used + storageSize 1 ∧
        (limitedNewStorage 1 (LimitedStorageProvider.mk 3 2)
          (some (Segment.mk 4 6))).state.limit =
          (LimitedStorageProvider.mk 3 2).limit)) ∧
    (storageSize 1 ≤ 3 →
      (limitedNewStorage 1 (LimitedStorageProvider.mk 3 0)
        (some (Segment.mk 4 6))).result = some (Segment.mk 4 6) ∧
      (3 < 2 * storageSize 1 →
        (limitedNewStorage 1
          (limitedNewStorage 1 (LimitedStorageProvider.mk 3 0)
            (some (Segment.mk 4 6))).state
          (some (Segment.mk 8 10))).result = none ∧
        (limitedNewStorage 1 (LimitedStorageProvider.mk 3 0)
          (some (Segment.mk 4 6))).result = some (Segment.mk 4 6))) ∧
    ((limitedDeleteStorage 1 (LimitedStorageProvider.mk 3 2)).1.used =
        (LimitedStorageProvider.mk 3 2).used - storageSize 1 ∧
     (limitedDeleteStorage 1 (LimitedStorageProvider.mk 3 2)).1.limit =
        (LimitedStorageProvider.mk 3 2).limit ∧
     (limitedDeleteStorage 1 (LimitedStorageProvider.mk 3 2)).2 = true) :=
  limitedProvider_spec 1 (LimitedStorageProvider.mk 3 2) (some (Segment.mk 4 6)) 3
    (Segment.mk 4 6) (Segment.mk 8 10)

/-- Modelled from the spec: an aligned storage handle owns at most one
segment; after a failed allocation it is in the well-defined empty state. -/
structure AlignedStorageHandle (L : Nat) where
  seg : Option (Segment L)

/-- Modelled from the spec: constructing an aligned storage from the result
of a provider allocation.  A failed allocation yields the empty handle; the
failure is data, not a thrown control transfer (the construction is a total
function). -/
def mkAlignedStorage (L : Nat) (allocResult : Option (Segment L)) :
    AlignedStorageHandle L :=
  AlignedStorageHandle.mk allocResult

/-- Modelled from the spec: the boolean conversion of an aligned storage
handle, false exactly in the empty state. -/
def AlignedStorageHandle.toBool (L : Nat) (h : AlignedStorageHandle L) : Bool :=
  h.seg.isSome

/-- Claim C4: construction from a failed allocation yields the well-defined
empty state whose boolean conversion is false, construction from a
successful allocation yields a handle whose boolean conversion is true, and
in particular construction through the zero-budget limited provider yields
the empty state. -/
theorem mkAlignedStorage_failure_state (L : Nat) :
    (mkAlignedStorage L none).toBool L = false ∧
    (∀ s : Segment L, (mkAlignedStorage L (some s)).toBool L = true) ∧
    (mkAlignedStorage L none).seg = none ∧
    (∀ d : Option (Segment L),
      (mkAlignedStorage L
        (limitedNewStorage L (LimitedStorageProvider.mk 0 0) d).result).toBool L =
        false) := by
  have hpos := storageSize_pos L
  refine ⟨rfl, fun s => rfl, rfl, ?_⟩
  intro d
  simp [limitedNewStorage, hpos, mkAlignedStorage, AlignedStorageHandle.toBool]

/-- A process-wide type descriptor, as in VTable.h: a kind tag and a
declared cell size.  From the sources: EmptyCell defines a VTable with a
CellKind and the template Size. -/
structure VTable where
  kind : Nat
  cellSizeBytes : Nat

/-- A cell object as the collector sees it: the header holds the identity
of its type descriptor (the address of the VTable, modelled as a natural
number, since the runtime compares descriptor pointers), plus an opaque
payload distinguishing instances. -/
structure GCCellObj where
  vtAddr : Nat
  payload : Nat

/-- From the sources: the getVT accessor of a cell returns its stored
type-descriptor pointer. -/
def GCCellObj.getVT (c : GCCellObj) : Nat := c.vtAddr

/-- From ExtStringForTest.h: classof compares the type-descriptor pointer
of the cell with the address of the static vt of the class being tested. -/
def classof (vtA : Nat) (c : GCCellObj) : Bool := c.getVT == vtA

/-- From the sources: the GCCell constructor stores the given type
descriptor into the header at construction. -/
def constructCell (vtA payload : Nat) : GCCellObj := GCCellObj.mk vtA payload

/-- The kind tag reported by a cell: the kind of the descriptor its header
points at, where vtOf is the (immutable, process-wide) map from descriptor
addresses to descriptors. -/
def cellKind (vtOf : Nat → VTable) (c : GCCellObj) : Nat := (vtOf c.getVT).kind

/-- Claim C8: the runtime type check compares descriptor identity only: two
instances constructed with the same descriptor report equal kind tags and
both pass the type check for it, and an instance of descriptor A never
passes the check for an unrelated descriptor B. -/
theorem cell_type_check (vtOf : Nat → VTable) (A B p q : Nat) (hAB : A ≠ B) :
    cellKind vtOf (constructCell A p) = cellKind vtOf (constructCell A q) ∧
    classof A (constructCell A p) = true ∧
    classof A (constructCell A q) = true ∧
    classof B (constructCell A p) = false := by
  refine ⟨rfl, ?_, ?_, ?_⟩
  · simp [classof, constructCell, GCCellObj.getVT]
  · simp [classof, constructCell, GCCellObj.getVT]
  · simp [classof, constructCell, GCCellObj.getVT]
    omega

/-- Witness for C8 at concrete descriptors and payloads. -/
theorem cell_type_check_witness :
    (0 : Nat) ≠ 1 ∧
    (cellKind (fun _ => VTable.mk 7 16) (constructCell 0 2) =
       cellKind (fun _ => VTable.mk 7 16) (constructCell 0 3) ∧
     classof 0 (constructCell 0 2) = true ∧
     classof 0 (constructCell 0 3) = true ∧
     classof 1 (constructCell 0 2) = false) :=
  ⟨by decide, cell_type_check (fun _ => VTable.mk 7 16) 0 1 2 3 (by decide)⟩

/-- From ExtStringForTest.h: a variable-size cell for testing.  Its
constructor passes the descriptor and sizeof(ExtStringForTest) to the
VariableSizeRuntimeCell base, which stores the byte size in the instance
header, and then stores the string length.  The memReleased flag models
whether the auxiliary backing memory has been given back early. -/
structure ExtStringForTest where
  vtAddr : Nat
  variableSize : Nat
  length : Nat
  memReleased : Bool

/-- From ExtStringForTest.h (constructor, lines 32 to 34): the header byte
size is written exactly once, at construction. -/
def mkExtStringForTest (sizeofExt vtA len : Nat) : ExtStringForTest :=
  ExtStringForTest.mk vtA sizeofExt len false

/-- Modelled from the spec: releaseMem (declared in ExtStringForTest.h, its
body is not in the sources) eagerly relinquishes the auxiliary backing
storage ahead of finalization; the header and type identity stay valid so
the collector can still account for the cell. -/
def ExtStringForTest.releaseMem (s : ExtStringForTest) : ExtStringForTest :=
  ExtStringForTest.mk s.vtAddr s.variableSize s.length true

/-- Claim C9: the per-instance byte size is written once at construction
and never mutated: releaseMem (iterated any number of times) leaves the
stored size and the type-descriptor identity unchanged, while marking the
auxiliary memory as released. -/
theorem extString_header_immutable (sizeofExt vtA len n : Nat)
    (c : ExtStringForTest) :
    (mkExtStringForTest sizeofExt vtA len).variableSize = sizeofExt ∧
    (mkExtStringForTest sizeofExt vtA len).vtAddr = vtA ∧
    c.releaseMem.variableSize = c.variableSize ∧
    c.releaseMem.vtAddr = c.vtAddr ∧
    c.releaseMem.length = c.length ∧
    c.releaseMem.memReleased = true ∧
    (ExtStringForTest.releaseMem^[n] c).variableSize = c.variableSize ∧
    (ExtStringForTest.releaseMem^[n] c).vtAddr = c.vtAddr := by
  refine ⟨rfl, rfl, rfl, rfl, rfl, rfl, ?_⟩
  induction n with
  | zero => exact ⟨rfl, rfl⟩
  | succ m ih =>
    rw [Function.iterate_succ_apply']
    exact ⟨ih.1, ih.2⟩

/-- From src/unnamed/part_000 (EmptyCell touch, lines 50 to 63): the loop
starts at the first byte after the header, strides by the page size while
strictly below the end of the cell, and writes one byte at each step.  The
function returns the trace of addresses written, in order.  The page size
is positive on every platform; the guard keeps the recursion well
founded. -/
def touchWrites (PS endA p : Nat) : List Nat :=
  if h : 0 < PS ∧ p < endA then p :: touchWrites PS endA (p + PS) else []
termination_by endA - p
decreasing_by omega

/-- From src/unnamed/part_000: touch returns the number of pages touched,
that is, the number of writes the loop performs.  The cell spans
[base, base + sizeBytes) and its header occupies headerBytes. -/
def EmptyCell.touch (base sizeBytes headerBytes PS : Nat) : Nat :=
  (touchWrites PS (base + sizeBytes) (base + headerBytes)).length

theorem touchWrites_length (PS : Nat) (hPS : 0 < PS) (endA p : Nat) :
    (touchWrites PS endA p).length = (endA - p + PS - 1) / PS := by
  rw [touchWrites]
  by_cases hp : p < endA
  · rw [dif_pos ⟨hPS, hp⟩]
    simp only [List.length_cons]
    rw [touchWrites_length PS hPS endA (p + PS)]
    have h1 : endA - (p + PS) = endA - p - PS := by omega
    rw [h1]
    have h2 : endA - p + PS - 1 = (endA - p - 1) + PS := by omega
    rw [h2, Nat.add_div_right _ hPS]
    rcases Nat.lt_or_ge (endA - p) PS with hlt | hge
    · have h3 : endA - p - PS = 0 := by omega
      rw [h3]
      have h4 : (0 + PS - 1) / PS = 0 := Nat.div_eq_of_lt (by omega)
      have h5 : (endA - p - 1) / PS = 0 := Nat.div_eq_of_lt (by omega)
      omega
    · have h3 : endA - p - PS + PS - 1 = (endA - p - 1) := by omega
      rw [h3]
  · rw [dif_neg (by omega)]
    have h4 : endA - p = 0 := by omega
    have h5 : (PS - 1) / PS = 0 := Nat.div_eq_of_lt (by omega)
    simp [h4, h5]
termination_by endA - p
decreasing_by omega

theorem touchWrites_eq_map (PS : Nat) (hPS : 0 < PS) (endA p : Nat) :
    touchWrites PS endA p =
      (List.range (touchWrites PS endA p).length).map (fun k => p + k * PS) := by
  rw [touchWrites]
  by_cases hp : p < endA
  · rw [dif_pos ⟨hPS, hp⟩]
    simp only [List.length_cons]
    rw [List.range_succ_eq_map, List.map_cons, List.map_map]
    refine List.cons_eq_cons.mpr ⟨by omega, ?_⟩
    conv_lhs => rw [touchWrites_eq_map PS hPS endA (p + PS)]
    refine List.map_congr_left ?_
    intro k hk
    simp [Function.comp, Nat.succ_mul]
    omega
  · rw [dif_neg (by omega)]
    simp
termination_by endA - p
decreasing_by omega

theorem touchWrites_mem_bounds (PS : Nat) (hPS : 0 < PS) (endA p a : Nat)
    (ha : a ∈ touchWrites PS endA p) : p ≤ a ∧ a < endA := by
  rw [touchWrites] at ha
  by_cases hp : p < endA
  · rw [dif_pos ⟨hPS, hp⟩] at ha
    rcases List.mem_cons.mp ha with h | h
    · omega
    · have := touchWrites_mem_bounds PS hPS endA (p + PS) a h
      omega
  · rw [dif_neg (by omega)] at ha
    simp at ha
termination_by endA - p
decreasing_by omega

/-- Claim C10: for a cell spanning sizeBytes from its base with a header of
headerBytes, touch writes one byte at each page-size stride starting at the
first byte after the header and strictly before the end of the cell, never
at or past the end, and returns exactly the number of such writes, namely
the ceiling of (sizeBytes - headerBytes) / PS when sizeBytes exceeds
headerBytes and zero otherwise. -/
theorem emptyCell_touch_spec (base sizeBytes headerBytes PS : Nat)
    (hPS : 0 < PS) :
    EmptyCell.touch base sizeBytes headerBytes PS =
      (touchWrites PS (base + sizeBytes) (base + headerBytes)).length ∧
    touchWrites PS (base + sizeBytes) (base + headerBytes) =
      (List.range (EmptyCell.touch base sizeBytes headerBytes PS)).map
        (fun k => base + headerBytes + k * PS) ∧
    (∀ a ∈ touchWrites PS (base + sizeBytes) (base + headerBytes),
      base + headerBytes ≤ a ∧ a < base + sizeBytes) ∧
    (headerBytes < sizeBytes →
      EmptyCell.touch base sizeBytes headerBytes PS =
        (sizeBytes - headerBytes + PS - 1) / PS) ∧
    (sizeBytes ≤ headerBytes → EmptyCell.touch base sizeBytes headerBytes PS = 0) := by
  have hlen := touchWrites_length PS hPS (base + sizeBytes) (base + headerBytes)
  refine ⟨rfl, touchWrites_eq_map PS hPS _ _, ?_, ?_, ?_⟩
  · intro a ha
    exact touchWrites_mem_bounds PS hPS _ _ a ha
  · intro hsz
    rw [EmptyCell.touch, hlen]
    have h1 : base + sizeBytes - (base + headerBytes) = sizeBytes - headerBytes := by
      omega
    rw [h1]
  · intro hsz
    rw [EmptyCell.touch, hlen]
    have h1 : base + sizeBytes - (base + headerBytes) = 0 := by omega
    rw [h1]
    exact Nat.div_eq_of_lt (by omega)

/-- Witness for C10 at a concrete cell: size 10, header 4, page size 3,
giving ceil(6 / 3) = 2 touched pages. -/
theorem emptyCell_touch_spec_witness :
    0 < 3 ∧
    (EmptyCell.touch 100 10 4 3 = (touchWrites 3 (100 + 10) (100 + 4)).length ∧
     touchWrites 3 (100 + 10) (100 + 4) =
       (List.range (EmptyCell.touch 100 10 4 3)).map (fun k => 100 + 4 + k * 3) ∧
     (∀ a ∈ touchWrites 3 (100 + 10) (100 + 4), 100 + 4 ≤ a ∧ a < 100 + 10) ∧
     (4 < 10 → EmptyCell.touch 100 10 4 3 = (10 - 4 + 3 - 1) / 3) ∧
     (10 ≤ 4 → EmptyCell.touch 100 10 4 3 = 0)) :=
  ⟨by decide, emptyCell_touch_spec 100 10 4 3 (by decide)⟩

end Hermes
